import Mathlib

/-!
A verification development for the flick compiler front end.

The repository's tokenizer (`src/lexer/tokens.rs`), parser (`src/parser.rs`) and
code generator (`src/compiler/compiler.rs`) are embedded shallowly below.
Strings are represented as `List Char`; the Rust code indexes and slices by
UTF-8 *bytes*, so byte offsets are modelled explicitly (`Char.utf8Size`,
`byteLen`, `dropBytes`) and a slice that would panic in Rust (an offset that is
not a character boundary) is modelled as a panic. Rust panics (`unwrap`,
`panic!` in the source, out-of-range slices) are modelled as in-band `panic`
outcomes (`none` / dedicated constructors), since a panic aborts the process.

Recursions that are not structural in the source are given an explicit fuel
argument so that every definition is executable by kernel reduction; all
top-level entry points supply provably sufficient fuel.
-/

namespace Flick

namespace Lexer

/-- Bracket kinds of `crate::lexer::Bracket`. -/
inductive Bracket
  | angle | curly | round | square
  deriving DecidableEq, Repr

/-- Single-character punctuation tokens of `crate::lexer::Punctuation`. -/
inductive Punctuation
  | ampersand | asterisk | atSign | backslash | caret | colon | comma | dash
  | dollar | dot | equals | exclamation | hashtag | newline | percent | pipe
  | plus | question | singleQuote | slash | tilde
  | openBracket (b : Bracket)
  | closeBracket (b : Bracket)
  deriving DecidableEq, Repr

/-- Reserved words of `crate::lexer::Keyword` (suffix `K` avoids Lean keywords). -/
inductive Keyword
  | andK | arrK | boolK | falseK | floatK | fnK | forK | ifK | intK | mapK
  | notK | orK | setK | strK | trueK | whileK
  deriving DecidableEq, Repr

/-- Comments of `crate::lexer::Comment`. -/
inductive Comment
  | regular (s : String)
  | docstring (s : String)
  deriving DecidableEq, Repr

/-- Literals of `crate::lexer::Literal`. The Rust `Float` variant carries an
`f64`; floating-point values are not modelled, so the float literal carries the
scanned source span instead (no claim in this file depends on a float value). -/
inductive Literal
  | int (n : Int)
  | float (text : List Char)
  | str (s : String)
  deriving DecidableEq, Repr

/-- Tokens of `crate::lexer::Token`. -/
inductive Token
  | punctuation (p : Punctuation)
  | keyword (k : Keyword)
  | literal (l : Literal)
  | comment (c : Comment)
  | identifier (name : String)
  deriving DecidableEq, Repr

/-- Lexical error kinds of `crate::lexer::ErrorKind`. -/
inductive ErrorKind
  | floatParsing (text : String)
  | incompleteEscape
  | unknownChar (c : Char)
  | unknownEscape (c : Char)
  | unterminatedStrLiteral
  deriving DecidableEq, Repr

instance {ε α : Type} [DecidableEq ε] [DecidableEq α] : DecidableEq (Except ε α) := fun
  | .error a, .error b =>
    if h : a = b then isTrue (by rw [h])
    else isFalse (by intro hh; cases hh; exact h rfl)
  | .error _, .ok _ => isFalse (by intro h; cases h)
  | .ok _, .error _ => isFalse (by intro h; cases h)
  | .ok a, .ok b =>
    if h : a = b then isTrue (by rw [h])
    else isFalse (by intro hh; cases hh; exact h rfl)

/-- `Result<Token, Error>` of the lexer (the Rust `Error` is a plain wrapper
around `ErrorKind`). -/
abbrev LexResult := Except ErrorKind Token

/-- Rust's `char::is_ascii_whitespace`: space, tab, newline, carriage return,
form feed. -/
def rustIsAsciiWhitespace (c : Char) : Bool :=
  c = ' ' || c = '\t' || c = '\n' || c = '\r' || c = '\x0C'

/-- A character skipped before each token by `Tokens::next`: ASCII whitespace
other than `\n` (the complement of the predicate passed to `find`). -/
def isSkippable (c : Char) : Bool :=
  rustIsAsciiWhitespace c && !(c = '\n')

/-- Rust's `char::is_ascii_hexdigit`. -/
def isAsciiHexDigit (c : Char) : Bool :=
  c.isDigit || ('a' ≤ c && c ≤ 'f') || ('A' ≤ c && c ≤ 'F')

/-- Models Rust's `char::is_alphabetic`. The Rust test is Unicode-general; the
model decides the ASCII range exactly and conservatively classifies non-ASCII
characters as non-alphabetic. No claim settled in this file applies the
alphabetic test to a non-ASCII character. -/
def is_alphabetic (c : Char) : Bool := c.isAlpha

/-- The UTF-8 byte length of a string represented as its character list. -/
def byteLen (s : List Char) : Nat := (s.map Char.utf8Size).sum

/-- Models re-slicing `&s[n..]` of a Rust `&str`: drops `n` bytes. Returns
`none` (a Rust panic) when `n` is past the end or inside a character's UTF-8
encoding (not a char boundary). -/
def dropBytes : Nat → List Char → Option (List Char)
  | 0, s => some s
  | _+1, [] => none
  | n+1, c :: s =>
    if n + 1 < c.utf8Size then none
    else dropBytes (n + 1 - c.utf8Size) s

/-- Outcome of parsing one escape sequence: a decoded character, an in-band
lexical error, or a process panic. -/
inductive EscRes
  | ok (c : Char)
  | err (e : ErrorKind)
  | panicked
  deriving DecidableEq, Repr

/-- `Tokens::take_n_hex_chars`: takes `n` hex digits from the iterator.
Returns the digits (or the error) together with the number of characters
actually consumed (the offending non-hex character is only peeked, not
consumed). -/
def take_n_hex_chars : Nat → List Char → Except ErrorKind (List Char) × Nat
  | 0, _ => (Except.ok [], 0)
  | _+1, [] => (Except.error .unterminatedStrLiteral, 0)
  | n+1, c :: rest =>
    if isAsciiHexDigit c then
      match take_n_hex_chars n rest with
      | (r, m) => (r.map (fun l => c :: l), m + 1)
    else (Except.error .incompleteEscape, 0)

/-- Value of one ASCII hex digit. -/
def hexDigitVal (c : Char) : Nat :=
  if c.isDigit then c.toNat - 48
  else if 'a' ≤ c && c ≤ 'f' then c.toNat - 87
  else c.toNat - 55

/-- `u32::from_str_radix(hex, 16)` on a list of hex digits (at most 4 digits
are ever taken, so the Rust conversion itself cannot fail). -/
def hexVal (l : List Char) : Nat := l.foldl (fun a c => 16 * a + hexDigitVal c) 0

/-- `Tokens::parse_hex_str`: `char::from_u32(u32::from_str_radix(..)).unwrap()`.
`char::from_u32` is `none` exactly when the value is not a Unicode scalar value
(a surrogate or above 0x10FFFF); the `unwrap` on that `none` is a panic,
modelled by `none` here. -/
def parse_hex_str (hex : List Char) : Option Char :=
  let n := hexVal hex
  if n < 0xD800 || (0xE000 ≤ n && n < 0x110000) then some (Char.ofNat n)
  else none

/-- The `u`/`x` arms of `parse_escape_in_str_literal`: take `n` hex digits and
decode them with `parse_hex_str` (whose `unwrap` panic is `EscRes.panicked`).
The count also covers the consumed `u`/`x` character itself. -/
def hexEscape (n : Nat) (rest : List Char) : EscRes × Nat :=
  match take_n_hex_chars n rest with
  | (.error e, m) => (.err e, 1 + m)
  | (.ok hx, m) =>
    match parse_hex_str hx with
    | some ch => (.ok ch, 1 + m)
    | none => (.panicked, 1 + m)

/-- `Tokens::parse_escape_in_str_literal`, applied to the characters after the
backslash. Also returns how many characters were consumed. -/
def parse_escape_in_str_literal : List Char → EscRes × Nat
  | [] => (.err .unterminatedStrLiteral, 0)
  | c :: rest =>
    if c = 'n' then (.ok '\n', 1)
    else if c = 'r' then (.ok '\r', 1)
    else if c = 't' then (.ok '\t', 1)
    else if c = '\\' then (.ok '\\', 1)
    else if c = '0' then (.ok (Char.ofNat 0), 1)
    else if c = '"' then (.ok '"', 1)
    else if c = 'u' then hexEscape 4 rest
    else if c = 'x' then hexEscape 2 rest
    else (.err (.unknownEscape c), 1)

/-- Result of the scanning loop inside `read_string_literal`: the loop either
returns at a closing quote (`done`, with the Rust value `i + 1`), returns at a
raw newline (`nlAt i`), falls off the end of input (`eofEnd`), or panics inside
an escape. The `Nat` is the value the Rust code uses as a byte offset, although
the loop computes it by *character* enumeration. -/
inductive StrOut
  | done (r : LexResult) (n : Nat)
  | nlAt (n : Nat)
  | eofEnd
  | panicked
  deriving DecidableEq, Repr

/-- The `loop` of `Tokens::read_string_literal`, with explicit fuel (the fuel
is always at least the length of the remaining character list). `i` is the
enumeration index of the next character, `perr` the latest escape error,
`acc` the decoded contents. -/
def strLoopF : Nat → List Char → Nat → Option ErrorKind → List Char → StrOut
  | 0, _, _, _, _ => .panicked
  | _+1, [], _, _, _ => .eofEnd
  | f+1, c :: rest, i, perr, acc =>
    if c = '"' then
      .done
        (match perr with
         | some e => .error e
         | none => .ok (.literal (.str acc.asString))) (i + 1)
    else if c = '\n' then .nlAt i
    else if c = '\\' then
      match parse_escape_in_str_literal rest with
      | (.ok d, m) => strLoopF f (rest.drop m) (i + 1 + m) perr (acc ++ [d])
      | (.err e, m) => strLoopF f (rest.drop m) (i + 1 + m) (some e) acc
      | (.panicked, _) => .panicked
    else strLoopF f rest (i + 1) perr (acc ++ [c])

/-- `Tokens::read_string_literal`, called with `s` starting at the opening
quote. `none` models a panic inside an escape decode. The returned `Nat` is
the length the caller slices off (in the newline and closing-quote cases the
Rust code computes it by character enumeration, not bytes). -/
def read_string_literal (s : List Char) : Option (LexResult × Nat) :=
  match strLoopF s.length s.tail 1 none [] with
  | .done r n => some (r, n)
  | .nlAt n => some (.error .unterminatedStrLiteral, n)
  | .eofEnd => some (.error .unterminatedStrLiteral, byteLen s)
  | .panicked => none

/-- `Tokens::read_comment`: counts the leading slashes, consumes up to the
newline (or end of input), and classifies by the slash count. Rust's
`str::trim` trims Unicode whitespace; `String.trim` trims ASCII whitespace,
which agrees on every input considered in this file. -/
def read_comment (s : List Char) : LexResult × Nat :=
  let n_slashes := (s.takeWhile (fun c => c = '/')).length
  let pre := s.takeWhile (fun c => !(c = '\n'))
  let source_len := byteLen pre
  let comment_body := ((pre.drop n_slashes).asString).trim
  if n_slashes = 3 then (.ok (.comment (.docstring comment_body)), source_len)
  else (.ok (.comment (.regular comment_body)), source_len)

/-- The predicate of the numeric scan in `read_numeric_literal`, applied to a
pair of adjacent characters `(prev, cur)`: `cur` continues the literal. -/
def numeric_scan_pred (prev cur : Char) : Bool :=
  cur.isDigit || cur = '.' || cur = 'E' || cur = 'e' ||
    ((cur = '-' || cur = '+') && (prev = 'E' || prev = 'e'))

/-- Length (minus one) of the numeric span: the number of consecutive adjacent
pairs satisfying `numeric_scan_pred`, starting from `prev`. -/
def numLenAux : Char → List Char → Nat
  | _, [] => 0
  | prev, cur :: rest =>
    if numeric_scan_pred prev cur then numLenAux cur rest + 1 else 0

/-- Value of an ASCII digit string. -/
def natOfDigits (s : List Char) : Nat :=
  s.foldl (fun a c => 10 * a + (c.toNat - 48)) 0

/-- Models `num.parse::<i64>().unwrap()` in the integer branch of
`read_numeric_literal`. In that branch the scanned span consists solely of
ASCII digits, so Rust's parse succeeds exactly when the value fits in an
`i64`; `none` models the panic of `unwrap` on overflow. -/
def parse_i64 (s : List Char) : Option Int :=
  let v := natOfDigits s
  if v ≤ 9223372036854775807 then some (v : Int) else none

/-- Models acceptance by Rust's `f64::from_str` for spans produced by the
numeric scan (which always start with a digit and contain only digits, `.`,
`e`/`E`, and a sign directly after `e`/`E`): digits, an optional fraction
marked by one `.`, and an optional exponent `e`/`E` with optional sign and at
least one digit, consuming the whole span. The float's numeric value is not
modelled. -/
def float_parse_ok (s : List Char) : Bool :=
  let ip := s.takeWhile Char.isDigit
  let r1 := s.dropWhile Char.isDigit
  let r2 := match r1 with
    | '.' :: t => t.dropWhile Char.isDigit
    | _ => r1
  !ip.isEmpty &&
    (match r2 with
     | [] => true
     | e :: t =>
       (e = 'e' || e = 'E') &&
         (let t2 := match t with
            | c :: tl => if c = '+' || c = '-' then tl else c :: tl
            | [] => []
          !(t2.takeWhile Char.isDigit).isEmpty &&
            (t2.dropWhile Char.isDigit).isEmpty))

/-- `Tokens::read_numeric_literal`. `none` models the panic of the `unwrap`
on `num.parse::<i64>()` (integer span whose value exceeds `i64::MAX`). -/
def read_numeric_literal (s : List Char) : Option (LexResult × Nat) :=
  let source_len := match s with
    | [] => 0
    | c :: rest => 1 + numLenAux c rest
  let num := s.take source_len
  if num.any (fun c => c = 'E' || c = 'e' || c = '.') then
    some
      ((if float_parse_ok num then .ok (.literal (.float num))
        else .error (.floatParsing num.asString)), source_len)
  else
    match parse_i64 num with
    | some n => some (.ok (.literal (.int n)), source_len)
    | none => none

/-- A character that may appear in an identifier (`is_alphabetic`, ASCII
digit, or underscore). -/
def identChar (c : Char) : Bool := is_alphabetic c || c.isDigit || c = '_'

/-- `Tokens::read_identifier_or_kw`: maximal run of identifier characters,
matched against the reserved-word table. -/
def read_identifier_or_kw (s : List Char) : LexResult × Nat :=
  let pre := s.takeWhile identChar
  let name := pre.asString
  let token : Token :=
    match name with
    | "arr" => .keyword .arrK
    | "bool" => .keyword .boolK
    | "float" => .keyword .floatK
    | "int" => .keyword .intK
    | "map" => .keyword .mapK
    | "set" => .keyword .setK
    | "str" => .keyword .strK
    | "and" => .keyword .andK
    | "false" => .keyword .falseK
    | "not" => .keyword .notK
    | "or" => .keyword .orK
    | "true" => .keyword .trueK
    | "fn" => .keyword .fnK
    | "for" => .keyword .forK
    | "if" => .keyword .ifK
    | "while" => .keyword .whileK
    | _ => .identifier name
  (.ok token, byteLen pre)

/-- The single-character punctuation arms of the `match` in `Tokens::next`
(curly braces are written via `Char.ofNat`). -/
def punctOf (c : Char) : Option Punctuation :=
  match c with
  | '&' => some .ampersand
  | '*' => some .asterisk
  | '@' => some .atSign
  | '\\' => some .backslash
  | '^' => some .caret
  | ':' => some .colon
  | ',' => some .comma
  | '-' => some .dash
  | '$' => some .dollar
  | '.' => some .dot
  | '=' => some .equals
  | '!' => some .exclamation
  | '#' => some .hashtag
  | '\n' => some .newline
  | '%' => some .percent
  | '|' => some .pipe
  | '+' => some .plus
  | '?' => some .question
  | '\'' => some .singleQuote
  | '/' => some .slash
  | '~' => some .tilde
  | '<' => some (.openBracket .angle)
  | '>' => some (.closeBracket .angle)
  | '(' => some (.openBracket .round)
  | ')' => some (.closeBracket .round)
  | '[' => some (.openBracket .square)
  | ']' => some (.closeBracket .square)
  | c =>
    if c = Char.ofNat 123 then some (.openBracket .curly)
    else if c = Char.ofNat 125 then some (.closeBracket .curly)
    else none

/-- Outcome of one call to `Tokens::next`: either the process panics, or one
`Result<Token, Error>` is produced and the cursor is left at `rest`. -/
inductive Step
  | panicked
  | emit (r : LexResult) (rest : List Char)
  deriving DecidableEq, Repr

/-- The dispatch `match` of `Tokens::next` over `(cur, next)`, applied to the
input after whitespace has been skipped: selects the arm and produces the
result together with the consumed byte length. `none` models a panic inside
the selected arm. -/
def dispatch : List Char → Option (LexResult × Nat)
  | [] => none
  | cur :: rest1 =>
    if cur = '/' && rest1.head? = some '/' then some (read_comment (cur :: rest1))
    else if cur = '"' then read_string_literal (cur :: rest1)
    else
      match punctOf cur with
      | some p => some (.ok (.punctuation p), 1)
      | none =>
        if cur.isDigit then read_numeric_literal (cur :: rest1)
        else if is_alphabetic cur || cur = '_' then
          some (read_identifier_or_kw (cur :: rest1))
        else some (.error (.unknownChar cur), cur.utf8Size)

/-- `<Tokens as Iterator>::next`: skip non-newline ASCII whitespace, then
dispatch on the first character (and, for comments, the second); finally
re-slice the remaining input by the produced byte length. `none` is Rust's
`None` (end of iteration); `some .panicked` is a process panic. -/
def nextTok (s : List Char) : Option Step :=
  match s.dropWhile isSkippable with
  | [] => none
  | cur :: rest1 =>
    match dispatch (cur :: rest1) with
    | none => some .panicked
    | some (r, n) =>
      match dropBytes n (cur :: rest1) with
      | some rest => some (.emit r rest)
      | none => some .panicked

/-- Iterating `Tokens::next` to exhaustion, with fuel. Returns the produced
sequence of results and whether the iteration ended in a panic. -/
def tokenizeF : Nat → List Char → List LexResult × Bool
  | 0, _ => ([], false)
  | f+1, s =>
    match nextTok s with
    | none => ([], false)
    | some .panicked => ([], true)
    | some (.emit r rest) =>
      let (l, p) := tokenizeF f rest
      (r :: l, p)

/-- Collecting the token stream of an input (`Tokens { unparsed: s }.collect()`).
Each produced result consumes at least one character, so `s.length + 1` fuel
is always sufficient. -/
def tokenize (s : List Char) : List LexResult × Bool := tokenizeF (s.length + 1) s

/-! ### A declarative view of the string-literal scan

`scanViewF` recomputes, over the characters following the opening quote, how
the scan of `read_string_literal` ends (`kind`), the list of escape errors
encountered on the way (`errs`, in order), the value the Rust code uses as the
consumed length (`count`, character-enumeration based), and the decoded
contents (`content`). `strLoopF_eq` proves that the loop of the source is
exactly described by this view; in particular the single error the loop keeps
is the *last* element of `errs`. -/

/-- How the string-literal scan ends. -/
inductive SKind
  | closed | nl | eofK | panicked
  deriving DecidableEq, Repr

/-- Declarative summary of the string-literal scan; see the section comment. -/
structure ScanView where
  kind : SKind
  errs : List ErrorKind
  count : Nat
  content : List Char
  deriving DecidableEq, Repr

/-- Computes the `ScanView` of the characters after the opening quote. -/
def scanViewF : Nat → List Char → ScanView
  | 0, _ => ⟨.panicked, [], 0, []⟩
  | _+1, [] => ⟨.eofK, [], 0, []⟩
  | f+1, c :: rest =>
    if c = '"' then ⟨.closed, [], 1, []⟩
    else if c = '\n' then ⟨.nl, [], 0, []⟩
    else if c = '\\' then
      match parse_escape_in_str_literal rest with
      | (.ok d, m) =>
        let v := scanViewF f (rest.drop m)
        ⟨v.kind, v.errs, v.count + (1 + m), d :: v.content⟩
      | (.err e, m) =>
        let v := scanViewF f (rest.drop m)
        ⟨v.kind, e :: v.errs, v.count + (1 + m), v.content⟩
      | (.panicked, _) => ⟨.panicked, [], 0, []⟩
    else
      let v := scanViewF f rest
      ⟨v.kind, v.errs, v.count + 1, c :: v.content⟩

/-- The scan view of a string literal starting at the opening quote of `s`,
with the fuel `read_string_literal` uses. -/
def strScan (s : List Char) : ScanView := scanViewF s.length s.tail

/-- The error the loop's `parsing_error` variable holds at the end: the last
of the encountered escape errors, or the incoming one if none occurred. -/
def lastErr (perr : Option ErrorKind) (errs : List ErrorKind) : Option ErrorKind :=
  (perr.toList ++ errs).getLast?

theorem lastErr_nil (perr : Option ErrorKind) : lastErr perr [] = perr := by
  cases perr <;> simp [lastErr]

theorem lastErr_cons (perr : Option ErrorKind) (e : ErrorKind) (l : List ErrorKind) :
    lastErr perr (e :: l) = lastErr (some e) l := by
  cases perr <;> simp [lastErr, List.getLast?_append]

/-- Interpretation of a `ScanView` as the outcome of `strLoopF`. -/
def viewOut (v : ScanView) (i : Nat) (perr : Option ErrorKind) (acc : List Char) : StrOut :=
  match v.kind with
  | .closed =>
    .done
      (match lastErr perr v.errs with
       | some e => .error e
       | none => .ok (.literal (.str (acc ++ v.content).asString))) (i + v.count)
  | .nl => .nlAt (i + v.count)
  | .eofK => .eofEnd
  | .panicked => .panicked

/-- The loop of `read_string_literal` is exactly described by its scan view. -/
theorem strLoopF_eq :
    ∀ (f : Nat) (cs : List Char) (i : Nat) (perr : Option ErrorKind) (acc : List Char),
      strLoopF f cs i perr acc = viewOut (scanViewF f cs) i perr acc := by
  intro f
  induction f with
  | zero => intro cs i perr acc; rfl
  | succ f ih =>
    intro cs i perr acc
    match cs with
    | [] => rfl
    | c :: rest =>
      by_cases hq : c = '"'
      · subst hq; simp [strLoopF, scanViewF, viewOut, lastErr_nil]
      · by_cases hn : c = '\n'
        · subst hn; simp [strLoopF, scanViewF, viewOut]
        · by_cases hb : c = '\\'
          · subst hb
            rw [show strLoopF (f+1) ('\\' :: rest) i perr acc =
                (match parse_escape_in_str_literal rest with
                 | (.ok d, m) => strLoopF f (rest.drop m) (i + 1 + m) perr (acc ++ [d])
                 | (.err e, m) => strLoopF f (rest.drop m) (i + 1 + m) (some e) acc
                 | (.panicked, _) => .panicked) from by
              simp [strLoopF]]
            rw [show scanViewF (f+1) ('\\' :: rest) =
                (match parse_escape_in_str_literal rest with
                 | (.ok d, m) =>
                   let v := scanViewF f (rest.drop m)
                   ⟨v.kind, v.errs, v.count + (1 + m), d :: v.content⟩
                 | (.err e, m) =>
                   let v := scanViewF f (rest.drop m)
                   ⟨v.kind, e :: v.errs, v.count + (1 + m), v.content⟩
                 | (.panicked, _) => ⟨.panicked, [], 0, []⟩) from by
              simp [scanViewF]]
            match hesc : parse_escape_in_str_literal rest with
            | (.ok d, m) =>
              dsimp only
              rw [ih (rest.drop m) (i + 1 + m) perr (acc ++ [d])]
              simp only [viewOut]
              cases hk : (scanViewF f (rest.drop m)).kind <;>
                simp [hk, List.append_assoc] <;> omega
            | (.err e, m) =>
              dsimp only
              rw [ih (rest.drop m) (i + 1 + m) (some e) acc]
              simp only [viewOut, lastErr_cons]
              cases hk : (scanViewF f (rest.drop m)).kind <;> simp [hk] <;> omega
            | (.panicked, m) => rfl
          · rw [show strLoopF (f+1) (c :: rest) i perr acc =
                  strLoopF f rest (i + 1) perr (acc ++ [c]) from by
                simp [strLoopF, hq, hn, hb]]
            rw [show scanViewF (f+1) (c :: rest) =
                ⟨(scanViewF f rest).kind, (scanViewF f rest).errs,
                 (scanViewF f rest).count + 1, c :: (scanViewF f rest).content⟩ from by
              simp [scanViewF, hq, hn, hb]]
            rw [ih rest (i + 1) perr (acc ++ [c])]
            simp only [viewOut]
            cases hk : (scanViewF f rest).kind <;>
              simp [hk, List.append_assoc] <;> omega

theorem take_n_hex_chars_le : ∀ (n : Nat) (l : List Char), (take_n_hex_chars n l).2 ≤ l.length := by
  intro n
  induction n with
  | zero => intro l; simp [take_n_hex_chars]
  | succ n ih =>
    intro l
    match l with
    | [] => simp [take_n_hex_chars]
    | c :: rest =>
      simp only [take_n_hex_chars]
      by_cases h : isAsciiHexDigit c
      · simp only [h, if_pos]
        have := ih rest
        cases htake : take_n_hex_chars n rest with
        | mk r m => simp [htake] at this ⊢; omega
      · simp [h]

theorem hexEscape_le (n : Nat) (rest : List Char) :
    (hexEscape n rest).2 ≤ 1 + rest.length := by
  have h := take_n_hex_chars_le n rest
  simp only [hexEscape]
  cases htake : take_n_hex_chars n rest with
  | mk r m =>
    rw [htake] at h
    cases r with
    | error e => simpa using by omega
    | ok hx =>
      cases hp : parse_hex_str hx <;> simp [hp] at h ⊢ <;> omega

theorem parse_escape_le (l : List Char) :
    (parse_escape_in_str_literal l).2 ≤ l.length := by
  match l with
  | [] => simp [parse_escape_in_str_literal]
  | c :: rest =>
    have h4 := hexEscape_le 4 rest
    have h2 := hexEscape_le 2 rest
    simp only [parse_escape_in_str_literal]
    split_ifs <;> simp <;> omega

theorem scanViewF_count_le :
    ∀ (f : Nat) (cs : List Char), (scanViewF f cs).count ≤ cs.length := by
  intro f
  induction f with
  | zero => intro cs; simp [scanViewF]
  | succ f ih =>
    intro cs
    match cs with
    | [] => simp [scanViewF]
    | c :: rest =>
      simp only [scanViewF]
      by_cases hq : c = '"'
      · simp [hq]
      · by_cases hn : c = '\n'
        · simp [hq, hn]
        · by_cases hb : c = '\\'
          · simp only [hq, hn, hb, if_neg, if_pos, if_true, if_false]
            have hesc := parse_escape_le rest
            cases htake : parse_escape_in_str_literal rest with
            | mk r m =>
              rw [htake] at hesc
              have hdrop : (rest.drop m).length = rest.length - m := List.length_drop m rest
              cases r <;> simp only []
              · have := ih (rest.drop m); simp at this ⊢; omega
              · have := ih (rest.drop m); simp at this ⊢; omega
              · simp
          · simp only [hq, hn, hb, if_neg, if_false]
            have := ih rest
            simp at this ⊢
            omega

theorem scanViewF_nl_drop :
    ∀ (f : Nat) (cs : List Char), (scanViewF f cs).kind = .nl →
      ∃ t, cs.drop (scanViewF f cs).count = '\n' :: t := by
  intro f
  induction f with
  | zero => intro cs h; simp [scanViewF] at h
  | succ f ih =>
    intro cs h
    match cs with
    | [] => simp [scanViewF] at h
    | c :: rest =>
      by_cases hq : c = '"'
      · simp only [scanViewF, if_pos hq] at h
        simp at h
      · by_cases hn : c = '\n'
        · refine ⟨rest, ?_⟩
          simp only [scanViewF, if_neg hq, if_pos hn]
          simp [hn]
        · by_cases hb : c = '\\'
          · simp only [scanViewF, if_neg hq, if_neg hn, if_pos hb] at h ⊢
            rcases htake : parse_escape_in_str_literal rest with ⟨r, m⟩
            rw [htake] at h
            cases r with
              | ok d =>
                dsimp only at h ⊢
                obtain ⟨t, ht⟩ := ih (rest.drop m) h
                refine ⟨t, ?_⟩
                rw [show (scanViewF f (rest.drop m)).count + (1 + m) =
                    ((scanViewF f (rest.drop m)).count + m) + 1 from by omega]
                simp only [List.drop_succ_cons]
                rw [List.drop_drop] at ht
                simpa [Nat.add_comm] using ht
              | err e =>
                dsimp only at h ⊢
                obtain ⟨t, ht⟩ := ih (rest.drop m) h
                refine ⟨t, ?_⟩
                rw [show (scanViewF f (rest.drop m)).count + (1 + m) =
                    ((scanViewF f (rest.drop m)).count + m) + 1 from by omega]
                simp only [List.drop_succ_cons]
                rw [List.drop_drop] at ht
                simpa [Nat.add_comm] using ht
              | panicked => simp at h
          · simp only [scanViewF, if_neg hq, if_neg hn, if_neg hb] at h ⊢
            obtain ⟨t, ht⟩ := ih rest h
            refine ⟨t, ?_⟩
            simp only [List.drop_succ_cons]
            exact ht

theorem byteLen_pos (c : Char) (l : List Char) : 1 ≤ byteLen (c :: l) := by
  have := Char.utf8Size_pos c
  simp [byteLen]
  omega

theorem byteLen_of_ones (s : List Char) (h : ∀ c ∈ s, c.utf8Size = 1) :
    byteLen s = s.length := by
  induction s with
  | nil => simp [byteLen]
  | cons c t ih =>
    have hc := h c (by simp)
    have ht := ih (fun x hx => h x (by simp [hx]))
    simp [byteLen] at ht ⊢
    omega

theorem dropBytes_lt :
    ∀ (s : List Char) (n : Nat) (r : List Char),
      dropBytes n s = some r → 1 ≤ n → r.length < s.length := by
  intro s
  induction s with
  | nil =>
    intro n r h h1
    match n, h1 with
    | m+1, _ => simp [dropBytes] at h
  | cons c t ih =>
    intro n r h h1
    match n with
    | 0 => omega
    | m+1 =>
      simp only [dropBytes] at h
      by_cases hlt : m + 1 < c.utf8Size
      · simp [hlt] at h
      · simp only [hlt, if_false, if_neg] at h
        by_cases hz : m + 1 - c.utf8Size = 0
        · rw [hz] at h
          simp [dropBytes] at h
          subst h
          simp
        · have := ih (m + 1 - c.utf8Size) r h (by omega)
          simp
          omega

theorem dropBytes_ones :
    ∀ (s : List Char) (n : Nat), (∀ c ∈ s, c.utf8Size = 1) → n ≤ s.length →
      dropBytes n s = some (s.drop n) := by
  intro s
  induction s with
  | nil =>
    intro n _ hn
    simp only [List.length_nil, Nat.le_zero] at hn
    subst hn
    simp [dropBytes]
  | cons c t ih =>
    intro n h hn
    match n with
    | 0 => simp [dropBytes]
    | m+1 =>
      have hc : c.utf8Size = 1 := h c (by simp)
      simp only [dropBytes, hc]
      rw [if_neg (by omega)]
      simp only [Nat.add_sub_cancel]
      exact ih m (fun x hx => h x (by simp [hx])) (by simp at hn; omega)

theorem read_string_literal_pos (s : List Char) (hs : s ≠ []) (r : LexResult) (n : Nat)
    (h : read_string_literal s = some (r, n)) : 1 ≤ n := by
  simp only [read_string_literal, strLoopF_eq, viewOut] at h
  rcases s with _ | ⟨c, t⟩
  · exact absurd rfl hs
  · cases hk : (scanViewF (c :: t).length (c :: t).tail).kind <;> rw [hk] at h <;> simp at h
    · omega
    · omega
    · have := byteLen_pos c t
      omega

theorem read_numeric_literal_pos (c : Char) (rest : List Char) (r : LexResult) (n : Nat)
    (h : read_numeric_literal (c :: rest) = some (r, n)) : 1 ≤ n := by
  simp only [read_numeric_literal] at h
  split at h
  · simp at h
    omega
  · split at h
    · simp at h
      omega
    · simp at h

theorem read_comment_pos (c : Char) (rest : List Char) (hc : c ≠ '\n') :
    1 ≤ (read_comment (c :: rest)).2 := by
  simp only [read_comment]
  have htw : (c :: rest).takeWhile (fun x => !(x = '\n')) =
      c :: rest.takeWhile (fun x => !(x = '\n')) := by
    rw [List.takeWhile_cons]
    simp [hc]
  rw [htw]
  split <;> exact byteLen_pos _ _

theorem read_identifier_or_kw_pos (c : Char) (rest : List Char) (hc : identChar c = true) :
    1 ≤ (read_identifier_or_kw (c :: rest)).2 := by
  simp only [read_identifier_or_kw]
  have : (c :: rest).takeWhile identChar = c :: rest.takeWhile identChar := by
    rw [List.takeWhile_cons]
    simp [hc]
  rw [this]
  exact byteLen_pos _ _

/-- Every arm selected by `dispatch` consumes at least one byte. -/
theorem dispatch_pos (cur : Char) (rest1 : List Char) (r : LexResult) (n : Nat)
    (h : dispatch (cur :: rest1) = some (r, n)) : 1 ≤ n := by
  simp only [dispatch] at h
  by_cases hcom : (cur = '/' && rest1.head? = some '/') = true
  · rw [if_pos hcom] at h
    have hcur : cur = '/' := by
      simp at hcom
      exact hcom.1
    have := read_comment_pos cur rest1 (by rw [hcur]; decide)
    cases hcc : read_comment (cur :: rest1) with
    | mk rr nn =>
      rw [hcc] at h this
      simp at h this
      omega
  · rw [if_neg hcom] at h
    by_cases hq : cur = '"'
    · rw [if_pos hq] at h
      exact read_string_literal_pos _ (by simp) r n h
    · rw [if_neg hq] at h
      cases hp : punctOf cur with
      | some p =>
        rw [hp] at h
        simp at h
        omega
      | none =>
        rw [hp] at h
        by_cases hd : cur.isDigit
        · rw [if_pos hd] at h
          exact read_numeric_literal_pos _ _ _ _ h
        · rw [if_neg hd] at h
          by_cases ha : (is_alphabetic cur || cur = '_') = true
          · rw [if_pos ha] at h
            have : identChar cur = true := by
              simp [identChar] at ha ⊢
              tauto
            have hlen := read_identifier_or_kw_pos cur rest1 this
            cases hcc : read_identifier_or_kw (cur :: rest1) with
            | mk rr nn =>
              rw [hcc] at h hlen
              simp at h hlen
              omega
          · rw [if_neg ha] at h
            simp at h
            have := Char.utf8Size_pos cur
            omega

/-- `Tokens::next` returns `None` exactly when the remaining input is empty or
consists only of skippable (non-newline ASCII) whitespace. -/
theorem nextTok_none_iff (s : List Char) :
    nextTok s = none ↔ ∀ c ∈ s, isSkippable c = true := by
  rw [← List.dropWhile_eq_nil_iff]
  simp only [nextTok]
  rcases hu : s.dropWhile isSkippable with _ | ⟨c, rest1⟩
  · simp
  · simp only []
    constructor
    · intro h
      cases hd : dispatch (c :: rest1) with
      | none => rw [hd] at h; simp at h
      | some v =>
        rcases v with ⟨r, n⟩
        rw [hd] at h
        dsimp only at h
        cases hdb : dropBytes n (c :: rest1) <;> rw [hdb] at h <;> simp at h
    · intro h
      cases h

/-- A produced result strictly shrinks the remaining input. -/
theorem nextTok_emit_lt (s : List Char) (r : LexResult) (rest : List Char)
    (h : nextTok s = some (.emit r rest)) : rest.length < s.length := by
  simp only [nextTok] at h
  rcases hu : s.dropWhile isSkippable with _ | ⟨c, rest1⟩
  · rw [hu] at h; simp at h
  · rw [hu] at h
    dsimp only at h
    have hle : (c :: rest1).length ≤ s.length := by
      rw [← hu]
      exact (List.dropWhile_sublist isSkippable).length_le
    cases hd : dispatch (c :: rest1) with
    | none => rw [hd] at h; simp at h
    | some v =>
      rcases v with ⟨r0, n⟩
      rw [hd] at h
      dsimp only at h
      have hn := dispatch_pos c rest1 r0 n hd
      cases hdb : dropBytes n (c :: rest1) with
      | none => rw [hdb] at h; simp at h
      | some rest0 =>
        rw [hdb] at h
        simp at h
        obtain ⟨hr, hrest⟩ := h
        subst hrest
        have := dropBytes_lt (c :: rest1) n rest0 hdb hn
        omega


theorem tokenizeF_fuel_inv :
    ∀ (f g : Nat) (s : List Char), s.length < f → s.length < g →
      tokenizeF f s = tokenizeF g s := by
  intro f
  induction f with
  | zero => intro g s hf; omega
  | succ f ih =>
    intro g s hf hg
    match g, hg with
    | g+1, _ =>
      simp only [tokenizeF]
      cases hnt : nextTok s with
      | none => rfl
      | some st =>
        cases st with
        | panicked => rfl
        | emit r rest =>
          dsimp only
          have hlt := nextTok_emit_lt s r rest hnt
          rw [ih f rest (by omega) (by omega)]
          rw [ih g rest (by omega) (by omega)]

theorem tokenize_step (s : List Char) (r : LexResult) (rest : List Char)
    (h : nextTok s = some (.emit r rest)) :
    tokenize s = (r :: (tokenize rest).1, (tokenize rest).2) := by
  have hlt := nextTok_emit_lt s r rest h
  show tokenizeF (s.length + 1) s = _
  simp only [tokenizeF, h]
  rw [tokenizeF_fuel_inv s.length (rest.length + 1) rest (by omega) (by omega)]
  rfl

theorem tokenize_stops_none (s : List Char) (h : nextTok s = none) :
    tokenize s = ([], false) := by
  show tokenizeF (s.length + 1) s = _
  simp only [tokenizeF, h]

theorem tokenize_stops_panic (s : List Char) (h : nextTok s = some .panicked) :
    tokenize s = ([], true) := by
  show tokenizeF (s.length + 1) s = _
  simp only [tokenizeF, h]

theorem tokenize_length_le_aux :
    ∀ (n : Nat) (s : List Char), s.length ≤ n → (tokenize s).1.length ≤ s.length := by
  intro n
  induction n with
  | zero =>
    intro s hs
    have : s = [] := by
      cases s
      · rfl
      · simp at hs
    subst this
    simp [tokenize, tokenizeF, nextTok]
  | succ n ih =>
    intro s hs
    cases hnt : nextTok s with
    | none => simp [tokenize_stops_none s hnt]
    | some st =>
      cases st with
      | panicked => simp [tokenize_stops_panic s hnt]
      | emit r rest =>
        have hlt := nextTok_emit_lt s r rest hnt
        rw [tokenize_step s r rest hnt]
        have := ih rest (by omega)
        simp
        omega


/-! ### Decimal strings

`decChars n` is the decimal character string of a natural number, modelling
Rust's `n.to_string()` for a non-negative integer: most significant digit
first, no leading zeros (except for `0` itself). -/

/-- The ASCII digit character of `d` (callers only use `d < 10`). -/
def digitChar : Nat → Char
  | 0 => '0' | 1 => '1' | 2 => '2' | 3 => '3' | 4 => '4'
  | 5 => '5' | 6 => '6' | 7 => '7' | 8 => '8' | _ => '9'

/-- Decimal digit characters of `n`, most significant first, with fuel. -/
def decCharsF : Nat → Nat → List Char
  | 0, _ => []
  | f+1, n =>
    if n < 10 then [digitChar n]
    else decCharsF f (n / 10) ++ [digitChar (n % 10)]

/-- Decimal string of `n`, as a character list (`n.to_string()` in Rust). -/
def decChars (n : Nat) : List Char := decCharsF (n + 1) n

theorem digitChar_facts :
    ∀ d, d < 10 →
      (digitChar d).isDigit = true ∧ (digitChar d).toNat - 48 = d ∧
      (digitChar d).utf8Size = 1 ∧ isSkippable (digitChar d) = false ∧
      punctOf (digitChar d) = none ∧ digitChar d ≠ '/' ∧ digitChar d ≠ '"' ∧
      digitChar d ≠ 'E' ∧ digitChar d ≠ 'e' ∧ digitChar d ≠ '.' := by
  decide

theorem decCharsF_shape :
    ∀ (f n : Nat), n < f → ∀ c ∈ decCharsF f n, ∃ d, d < 10 ∧ c = digitChar d := by
  intro f
  induction f with
  | zero => intro n h; omega
  | succ f ih =>
    intro n h c hc
    simp only [decCharsF] at hc
    by_cases hn : n < 10
    · rw [if_pos hn] at hc
      simp at hc
      exact ⟨n, hn, hc⟩
    · rw [if_neg hn] at hc
      simp at hc
      rcases hc with hc | hc
      · exact ih (n / 10) (by omega) c hc
      · exact ⟨n % 10, by omega, hc⟩

theorem decCharsF_ne_nil :
    ∀ (f n : Nat), n < f → decCharsF f n ≠ [] := by
  intro f
  induction f with
  | zero => intro n h; omega
  | succ f _ =>
    intro n h
    simp only [decCharsF]
    by_cases hn : n < 10
    · simp [hn]
    · simp [hn]

theorem natOfDigits_append (l : List Char) (c : Char) :
    natOfDigits (l ++ [c]) = 10 * natOfDigits l + (c.toNat - 48) := by
  simp [natOfDigits, List.foldl_append]

theorem decCharsF_val :
    ∀ (f n : Nat), n < f → natOfDigits (decCharsF f n) = n := by
  intro f
  induction f with
  | zero => intro n h; omega
  | succ f ih =>
    intro n h
    simp only [decCharsF]
    by_cases hn : n < 10
    · rw [if_pos hn]
      have := (digitChar_facts n hn).2.1
      simp [natOfDigits]
      omega
    · rw [if_neg hn]
      rw [natOfDigits_append]
      rw [ih (n / 10) (by omega)]
      have := (digitChar_facts (n % 10) (by omega)).2.1
      omega

theorem numLenAux_all_digits :
    ∀ (rest : List Char) (prev : Char), (∀ c ∈ rest, c.isDigit = true) →
      numLenAux prev rest = rest.length := by
  intro rest
  induction rest with
  | nil => intro prev _; rfl
  | cons cur t ih =>
    intro prev h
    have hcur : cur.isDigit = true := h cur (by simp)
    simp only [numLenAux, numeric_scan_pred, hcur]
    rw [if_pos (by simp)]
    rw [ih cur (fun c hc => h c (by simp [hc]))]
    simp

/-- On a nonempty all-digit span whose value fits in `i64`, the numeric reader
produces the `Int` literal of the span's value and consumes the whole span. -/
theorem read_numeric_literal_digits (s : List Char) (hne : s ≠ [])
    (hd : ∀ c ∈ s, ∃ d, d < 10 ∧ c = digitChar d)
    (hval : natOfDigits s ≤ 9223372036854775807) :
    read_numeric_literal s =
      some (.ok (.literal (.int (natOfDigits s))), s.length) := by
  have hdig : ∀ c ∈ s, c.isDigit = true := by
    intro c hc
    obtain ⟨d, hd10, rfl⟩ := hd c hc
    exact (digitChar_facts d hd10).1
  rcases s with _ | ⟨c, rest⟩
  · exact absurd rfl hne
  · simp only [read_numeric_literal]
    have hlen : 1 + numLenAux c rest = (c :: rest).length := by
      rw [numLenAux_all_digits rest c (fun x hx => hdig x (by simp [hx]))]
      simp
      omega
    rw [hlen, List.take_length]
    have hnoe : (c :: rest).any (fun x => x = 'E' || x = 'e' || x = '.') = false := by
      simp only [List.any_eq_false]
      intro x hx
      obtain ⟨d, hd10, rfl⟩ := hd x hx
      have hf := digitChar_facts d hd10
      simp [hf.2.2.2.2.2.2.2.1, hf.2.2.2.2.2.2.2.2.1, hf.2.2.2.2.2.2.2.2.2]
    rw [hnoe]
    simp only [Bool.false_eq_true, if_false, if_neg]
    simp only [parse_i64, if_pos hval]


theorem lastErr_none (errs : List ErrorKind) : lastErr none errs = errs.getLast? := by
  simp [lastErr]

/-- The string-literal arm of `nextTok`, for an input starting at a quote whose
characters are single-byte: the produced result is emitted and the consumed
prefix is dropped characterwise. -/
theorem nextTok_string_arm (t : List Char) (r : LexResult) (n : Nat)
    (hr : read_string_literal ('"' :: t) = some (r, n)) (hn : n ≤ ('"' :: t).length)
    (h1 : ∀ c ∈ ('"' :: t), c.utf8Size = 1) :
    nextTok ('"' :: t) = some (.emit r (('"' :: t).drop n)) := by
  simp only [nextTok]
  rw [List.dropWhile_cons_of_neg (by decide)]
  simp only [dispatch]
  rw [if_neg (by simp)]
  simp only [if_true]
  rw [hr]
  dsimp only
  rw [dropBytes_ones _ _ h1 hn]

/-- The newline arm of `nextTok`: a leading `\n` is emitted as a Newline
punctuation token consuming exactly one character. -/
theorem nextTok_newline (t2 : List Char) :
    nextTok ('\n' :: t2) = some (.emit (.ok (.punctuation .newline)) t2) := by
  simp only [nextTok]
  rw [List.dropWhile_cons_of_neg (by decide)]
  simp only [dispatch]
  rw [if_neg (by simp), if_neg (by decide)]
  rw [show punctOf '\n' = some Punctuation.newline from by decide]
  dsimp only
  rw [show dropBytes 1 ('\n' :: t2) = some t2 from by simp [dropBytes, Char.utf8Size]]


/-! ### Claim theorems about the tokenizer -/

/-- C1: the claim says a `\u` escape with 4 hex digits whose value is not a
Unicode scalar value is surfaced as an in-band decode failure without
panicking. The code instead panics: `parse_hex_str` calls
`char::from_u32(..).unwrap()`, and on the literal `"\uD800"` the conversion
is `none`, so the whole tokenization panics and produces nothing (the claim is
right about the spec's intent, the code is wrong — a code bug). -/
theorem tokenize_invalid_unicode_escape_panics :
    parse_hex_str ('D' :: '8' :: '0' :: '0' :: []) = none ∧
    tokenize ('"' :: '\\' :: 'u' :: 'D' :: '8' :: '0' :: '0' :: '"' :: []) = ([], true) := by
  decide

/-- C2 counterexample: for n = 2^63 = 9223372036854775808 (one past
`i64::MAX`), tokenizing the decimal string of `n` does not yield an Int
literal token carrying `n`: the `unwrap` of `num.parse::<i64>()` panics and
the stream produces nothing. -/
theorem tokenize_decimal_overflow_panics :
    decChars 9223372036854775808 =
      ('9' :: '2' :: '2' :: '3' :: '3' :: '7' :: '2' :: '0' :: '3' :: '6' ::
       '8' :: '5' :: '4' :: '7' :: '7' :: '5' :: '8' :: '0' :: '8' :: []) ∧
    tokenize (decChars 9223372036854775808) = ([], true) := by
  decide

/-- C2 (amended): for every non-negative integer n smaller than 2^63 (so that
the value fits in the `i64` the token carries), tokenizing the decimal string
of n yields exactly one Int literal token with value n, with no error, no
panic, and nothing else in the stream. -/
theorem tokenize_decimal_int (n : Nat) (h : n < 2 ^ 63) :
    tokenize (decChars n) = ([Except.ok (.literal (.int (n : Int)))], false) := by
  have hval : natOfDigits (decChars n) = n := decCharsF_val (n + 1) n (Nat.lt_succ_self n)
  have hmax : natOfDigits (decChars n) ≤ 9223372036854775807 := by
    have h2 : (2 : Nat) ^ 63 = 9223372036854775808 := by norm_num
    omega
  have hshape : ∀ c ∈ decChars n, ∃ d, d < 10 ∧ c = digitChar d :=
    decCharsF_shape (n + 1) n (Nat.lt_succ_self n)
  have hne : decChars n ≠ [] := decCharsF_ne_nil (n + 1) n (Nat.lt_succ_self n)
  have hread := read_numeric_literal_digits (decChars n) hne hshape hmax
  have hones : ∀ c ∈ decChars n, c.utf8Size = 1 := by
    intro c hc
    obtain ⟨d, hd10, rfl⟩ := hshape c hc
    exact (digitChar_facts d hd10).2.2.1
  obtain ⟨c, rest, hcr⟩ : ∃ c rest, decChars n = c :: rest := by
    rcases hd : decChars n with _ | ⟨c, rest⟩
    · exact absurd hd hne
    · exact ⟨c, rest, rfl⟩
  obtain ⟨d, hd10, hcd⟩ := hshape c (by rw [hcr]; simp)
  have hfacts := digitChar_facts d hd10
  have hdisp : dispatch (c :: rest) =
      some (.ok (.literal (.int (natOfDigits (decChars n)))), (decChars n).length) := by
    simp only [dispatch]
    rw [if_neg (by rw [hcd]; simp [hfacts.2.2.2.2.2.1])]
    rw [if_neg (by rw [hcd]; simp [hfacts.2.2.2.2.2.2.1])]
    rw [hcd, hfacts.2.2.2.2.1]
    dsimp only
    rw [if_pos hfacts.1]
    rw [← hcd, ← hcr]
    exact hread
  have hnt : nextTok (decChars n) =
      some (.emit (.ok (.literal (.int (natOfDigits (decChars n))))) []) := by
    simp only [nextTok]
    rw [hcr, List.dropWhile_cons_of_neg (by rw [hcd]; simp [hfacts.2.2.2.1])]
    dsimp only
    rw [hdisp]
    dsimp only
    rw [← hcr]
    rw [dropBytes_ones _ _ hones (le_refl _), List.drop_length]
  rw [tokenize_step _ _ _ hnt, tokenize_stops_none [] rfl, hval]

/-- Witness for `tokenize_decimal_int` at n = 5. -/
theorem tokenize_decimal_int_witness :
    (5 : Nat) < 2 ^ 63 ∧
    tokenize (decChars 5) = ([Except.ok (.literal (.int ((5 : Nat) : Int)))], false) :=
  ⟨by norm_num, tokenize_decimal_int 5 (by norm_num)⟩

/-- C9 counterexample: on the input `"\uDFFF"` the call to `next` neither
returns `None` nor returns a `Result` — it panics (inside `parse_hex_str`), so
"each call returns None or one Result" is false as stated. -/
theorem nextTok_panic_counterexample :
    nextTok ('"' :: '\\' :: 'u' :: 'D' :: 'F' :: 'F' :: 'F' :: '"' :: []) =
      some Step.panicked ∧
    tokenize ('"' :: '\\' :: 'u' :: 'D' :: 'F' :: 'F' :: 'F' :: '"' :: []) = ([], true) := by
  decide

/-- C9 (amended): each call to `next` either returns `None` — exactly when the
remaining input is empty or all skippable whitespace — or panics (only inside
a literal, e.g. an invalid `\u` scalar or an out-of-range int literal), or
returns one `Result` and advances the cursor by at least one character; hence
tokenizing any finite input terminates with a finite result sequence (at most
one per input character). -/
theorem nextTok_progress (s : List Char) :
    (nextTok s = none ↔ ∀ c ∈ s, isSkippable c = true) ∧
    (∀ r rest, nextTok s = some (.emit r rest) → rest.length < s.length) ∧
    (tokenize s).1.length ≤ s.length :=
  ⟨nextTok_none_iff s, fun r rest h => nextTok_emit_lt s r rest h,
   tokenize_length_le_aux s.length s (le_refl _)⟩

/-- Witness for `nextTok_progress` at the input `1`. -/
theorem nextTok_progress_witness :
    nextTok ('1' :: []) = some (.emit (Except.ok (.literal (.int 1))) []) ∧
    ([] : List Char).length < ('1' :: []).length :=
  ⟨by decide,
   (nextTok_progress ('1' :: [])).2.1 (Except.ok (.literal (.int 1))) [] (by decide)⟩


/-- C5 counterexample: on the concrete input `"ab€` + newline the tokenizer
does not consume "the characters before the newline" and never emits the
newline token: the consumed length is computed by character enumeration but
used as a byte offset, which on this input falls inside the `€` encoding, so
the process panics, producing nothing at all. -/
theorem tokenize_multibyte_newline_panics :
    tokenize ('"' :: 'a' :: 'b' :: '€' :: '\n' :: []) = ([], true) := by
  decide

/-- C5 (amended): tokenizing `"test` + newline + `"` yields exactly, in order,
an UnterminatedStrLiteral error, a Newline punctuation token, and another
UnterminatedStrLiteral error; and in general, when a raw newline occurs inside
a string literal *whose characters are single-byte*, the tokenizer consumes
only the characters before the newline, so the newline itself is emitted as
the next token. -/
theorem tokenize_newline_in_string_resync :
    (tokenize ('"' :: 't' :: 'e' :: 's' :: 't' :: '\n' :: '"' :: []) =
       ([Except.error .unterminatedStrLiteral, Except.ok (.punctuation .newline),
         Except.error .unterminatedStrLiteral], false)) ∧
    (∀ s : List Char, (∀ c ∈ s, c.utf8Size = 1) → (∃ t, s = '"' :: t) →
      (strScan s).kind = .nl →
      nextTok s = some (.emit (.error .unterminatedStrLiteral)
          (s.drop (1 + (strScan s).count))) ∧
      (∃ t2, s.drop (1 + (strScan s).count) = '\n' :: t2) ∧
      (∃ rest2, nextTok (s.drop (1 + (strScan s).count)) =
          some (.emit (.ok (.punctuation .newline)) rest2))) := by
  constructor
  · decide
  · intro s h1 hq hnl
    obtain ⟨t, rfl⟩ := hq
    have hnl' : (scanViewF ('"' :: t).length t).kind = .nl := by
      simpa [strScan] using hnl
    have hcount : (strScan ('"' :: t)).count ≤ t.length := by
      have := scanViewF_count_le ('"' :: t).length t
      simpa [strScan] using this
    have hr : read_string_literal ('"' :: t) =
        some (.error .unterminatedStrLiteral, 1 + (strScan ('"' :: t)).count) := by
      simp only [read_string_literal, strLoopF_eq, viewOut, List.tail_cons]
      rw [hnl']
      dsimp only
      simp [strScan]
    have hn_le : 1 + (strScan ('"' :: t)).count ≤ ('"' :: t).length := by
      simp only [List.length_cons]
      omega
    have hstep := nextTok_string_arm t _ _ hr hn_le h1
    refine ⟨hstep, ?_, ?_⟩
    · obtain ⟨t2, ht2⟩ := scanViewF_nl_drop ('"' :: t).length t hnl'
      refine ⟨t2, ?_⟩
      rw [Nat.add_comm 1]
      simp only [List.drop_succ_cons]
      simpa [strScan] using ht2
    · obtain ⟨t2, ht2⟩ : ∃ t2, ('"' :: t).drop (1 + (strScan ('"' :: t)).count) = '\n' :: t2 := by
        obtain ⟨t2, ht2⟩ := scanViewF_nl_drop ('"' :: t).length t hnl'
        refine ⟨t2, ?_⟩
        rw [Nat.add_comm 1]
        simp only [List.drop_succ_cons]
        simpa [strScan] using ht2
      refine ⟨t2, ?_⟩
      rw [ht2]
      exact nextTok_newline t2

/-- Witness for the general part of `tokenize_newline_in_string_resync` at the
input `"ab` + newline. -/
theorem tokenize_newline_in_string_resync_witness :
    (∀ c ∈ ('"' :: 'a' :: 'b' :: '\n' :: []), c.utf8Size = 1) ∧
    (strScan ('"' :: 'a' :: 'b' :: '\n' :: [])).kind = .nl ∧
    (nextTok ('"' :: 'a' :: 'b' :: '\n' :: []) =
        some (.emit (.error .unterminatedStrLiteral)
          (('"' :: 'a' :: 'b' :: '\n' :: []).drop
            (1 + (strScan ('"' :: 'a' :: 'b' :: '\n' :: [])).count))) ∧
      (∃ t2, ('"' :: 'a' :: 'b' :: '\n' :: []).drop
          (1 + (strScan ('"' :: 'a' :: 'b' :: '\n' :: [])).count) = '\n' :: t2) ∧
      (∃ rest2, nextTok (('"' :: 'a' :: 'b' :: '\n' :: []).drop
          (1 + (strScan ('"' :: 'a' :: 'b' :: '\n' :: [])).count)) =
          some (.emit (.ok (.punctuation .newline)) rest2))) :=
  ⟨by decide, by decide,
   tokenize_newline_in_string_resync.2 ('"' :: 'a' :: 'b' :: '\n' :: [])
     (by decide) ⟨('a' :: 'b' :: '\n' :: []), rfl⟩ (by decide)⟩

/-- C10 counterexample: the literal `"é\e"` is terminated by a closing quote
on its own line and contains one invalid escape, yet the tokenizer does not
consume the entire literal including the closing quote: the enumeration-based
count lands (in bytes) before the quote, the quote is re-tokenized as a new
unterminated string, and the stream carries *two* errors instead of one. -/
theorem tokenize_multibyte_invalid_escape_two_errors :
    tokenize ('"' :: 'é' :: '\\' :: 'e' :: '"' :: []) =
      ([Except.error (.unknownEscape 'e'), Except.error .unterminatedStrLiteral], false) := by
  decide

/-- C10 (amended): if a string literal made of single-byte characters is
terminated by a closing quote on the same line but its scan encountered one or
more invalid escape sequences, the tokenizer consumes the entire literal
including the closing quote (`1 + count` characters) and yields in place of
the string token a single error — the one produced by the *last* invalid
escape — and tokenization continues normally after the closing quote. -/
theorem tokenize_terminated_literal_last_escape_error (s : List Char)
    (h1 : ∀ c ∈ s, c.utf8Size = 1) (hq : ∃ t, s = '"' :: t)
    (hk : (strScan s).kind = .closed) (he : (strScan s).errs ≠ []) :
    ∃ e, (strScan s).errs.getLast? = some e ∧
      nextTok s = some (.emit (.error e) (s.drop (1 + (strScan s).count))) ∧
      tokenize s = (Except.error e :: (tokenize (s.drop (1 + (strScan s).count))).1,
                    (tokenize (s.drop (1 + (strScan s).count))).2) := by
  obtain ⟨t, rfl⟩ := hq
  have hk' : (scanViewF ('"' :: t).length t).kind = .closed := by
    simpa [strScan] using hk
  have he' : (scanViewF ('"' :: t).length t).errs ≠ [] := by
    simpa [strScan] using he
  obtain ⟨e, hge⟩ : ∃ e, (scanViewF ('"' :: t).length t).errs.getLast? = some e := by
    cases hgl : (scanViewF ('"' :: t).length t).errs.getLast? with
    | none =>
      exact absurd (List.getLast?_eq_none_iff.mp hgl) he'
    | some e => exact ⟨e, rfl⟩
  have hcount : (strScan ('"' :: t)).count ≤ t.length := by
    have := scanViewF_count_le ('"' :: t).length t
    simpa [strScan] using this
  have hr : read_string_literal ('"' :: t) =
      some (.error e, 1 + (strScan ('"' :: t)).count) := by
    simp only [read_string_literal, strLoopF_eq, viewOut, List.tail_cons]
    rw [hk']
    dsimp only
    rw [lastErr_none, hge]
    simp [strScan]
  have hn_le : 1 + (strScan ('"' :: t)).count ≤ ('"' :: t).length := by
    simp only [List.length_cons]
    omega
  have hstep := nextTok_string_arm t _ _ hr hn_le h1
  refine ⟨e, by simpa [strScan] using hge, hstep, ?_⟩
  exact tokenize_step _ _ _ hstep

/-- Witness for `tokenize_terminated_literal_last_escape_error` at the input
`"\e\q"` (two invalid escapes; the kept error is the last one, `\q`). -/
theorem tokenize_terminated_literal_last_escape_error_witness :
    (∀ c ∈ ('"' :: '\\' :: 'e' :: '\\' :: 'q' :: '"' :: []), c.utf8Size = 1) ∧
    (strScan ('"' :: '\\' :: 'e' :: '\\' :: 'q' :: '"' :: [])).kind = .closed ∧
    (strScan ('"' :: '\\' :: 'e' :: '\\' :: 'q' :: '"' :: [])).errs ≠ [] ∧
    (∃ e, (strScan ('"' :: '\\' :: 'e' :: '\\' :: 'q' :: '"' :: [])).errs.getLast? = some e ∧
      nextTok ('"' :: '\\' :: 'e' :: '\\' :: 'q' :: '"' :: []) =
        some (.emit (.error e)
          (('"' :: '\\' :: 'e' :: '\\' :: 'q' :: '"' :: []).drop
            (1 + (strScan ('"' :: '\\' :: 'e' :: '\\' :: 'q' :: '"' :: [])).count))) ∧
      tokenize ('"' :: '\\' :: 'e' :: '\\' :: 'q' :: '"' :: []) =
        (Except.error e ::
          (tokenize (('"' :: '\\' :: 'e' :: '\\' :: 'q' :: '"' :: []).drop
            (1 + (strScan ('"' :: '\\' :: 'e' :: '\\' :: 'q' :: '"' :: [])).count))).1,
         (tokenize (('"' :: '\\' :: 'e' :: '\\' :: 'q' :: '"' :: []).drop
            (1 + (strScan ('"' :: '\\' :: 'e' :: '\\' :: 'q' :: '"' :: [])).count))).2)) :=
  ⟨by decide, by decide, by decide,
   tokenize_terminated_literal_last_escape_error
     ('"' :: '\\' :: 'e' :: '\\' :: 'q' :: '"' :: []) (by decide)
     ⟨('\\' :: 'e' :: '\\' :: 'q' :: '"' :: []), rfl⟩ (by decide) (by decide)⟩

end Lexer

namespace Parser

/-! ### The parser of `src/parser.rs`

`src/parser.rs` consumes tokens of `crate::token::Token` and produces the AST
of `crate::ast`; neither module is under `src/`, so their data declarations
are modelled from the spec and from exactly the variants `src/parser.rs` (and
its tests) use. The parser functions themselves are translated from
`src/parser.rs`. The cursor is represented by the remaining token suffix
(`peek_token(n)` is the n-th element, `next_token` pops the head): the Rust
cursor only moves forward, so the two views coincide. Parser panics
(`panic!`, `todo!` in `parse_index`) are the `panicked` outcome. The mutual
recursion of the source is not structural, so each function carries fuel;
`parseFuel` below always suffices for the claims' inputs. -/

/-- Modelled from the spec: `crate::token::Type` (only `i64` and `Void` exist
per the spec's data model and `parser.rs` usage). -/
inductive Ty
  | i64 | void
  deriving DecidableEq, Repr

/-- Modelled from the spec: `crate::token::OperatorSymbol`, with the symbols
`src/parser.rs` matches on. -/
inductive OperatorSymbol
  | plus | minus | asterisk | slash
  | plusEq | timesEq | minusEq | divideEq | assign
  | equalTo | notEqualTo | lessThan | lessOrEqualTo | greaterThan | greaterOrEqualTo
  deriving DecidableEq, Repr

/-- Modelled from the spec: `crate::token::Token`, with the variants
`src/parser.rs` matches on. -/
inductive Token
  | fnTok | retTok | whileTok | newline | comma
  | lParen | rParen | lSquare | rSquare | lSquirly | rSquirly
  | comment (s : String)
  | docstring (s : String)
  | typeTok (t : Ty)
  | identifier (name : String)
  | i64Literal (n : Int)
  | operatorSymbol (op : OperatorSymbol)
  deriving DecidableEq, Repr

/-- Modelled from the spec: `crate::ast::BinaryOperator`. Besides the
arithmetic and comparison operators of the spec's data model it has an
`assign` variant, which the parser test `var_modification` exhibits. -/
inductive BinaryOperator
  | add | subtract | multiply | divide
  | equalTo | notEqualTo | lessThan | lessOrEqualTo | greaterThan | greaterOrEqualTo
  | assign
  deriving DecidableEq, Repr

/-- Modelled from the spec: `BinaryOperator::from(OperatorSymbol)` of the
missing `ast.rs`. Arithmetic and comparison symbols map to their operators and
`=` maps to `assign` (as the test `var_modification` shows); each
compound-assignment symbol maps to "the corresponding plain operator" in the
spec's words. -/
def BinaryOperator.fromSym : OperatorSymbol → BinaryOperator
  | .plus => .add
  | .minus => .subtract
  | .asterisk => .multiply
  | .slash => .divide
  | .plusEq => .add
  | .timesEq => .multiply
  | .minusEq => .subtract
  | .divideEq => .divide
  | .assign => .assign
  | .equalTo => .equalTo
  | .notEqualTo => .notEqualTo
  | .lessThan => .lessThan
  | .lessOrEqualTo => .lessOrEqualTo
  | .greaterThan => .greaterThan
  | .greaterOrEqualTo => .greaterOrEqualTo

/-- Modelled from the spec: `crate::ast::Expr` as used by `src/parser.rs`.
The Rust `BinExpr`/`CallExpr`/`IndexExpr` structs are flattened into
constructor fields; `IndexExpr`'s index field is never produced because
`parse_index` is `todo!()`. -/
inductive Expr
  | identifier (name : String)
  | i64Literal (n : Int)
  | binExpr (left : Expr) (operator : BinaryOperator) (right : Expr)
  | callExpr (function_name : Expr) (args : List Expr)
  | indexExpr (container : Expr)
  deriving Repr

/-- Modelled from the spec: `crate::ast::Statement` as used by
`src/parser.rs` (the `VarDeclaration` and `WhileLoop` structs are flattened
into constructor fields). -/
inductive Statement
  | varDeclaration (var_name : String) (var_type : Ty) (var_value : Expr)
  | whileLoop (condition : Expr) (body : List Statement)
  | exprStatement (e : Expr)
  | returnStatement (e : Expr)
  deriving Repr

/-- Outcome of a parser function: a fatal parse error aborting compilation
(`panicked`), or a value plus the remaining tokens. -/
inductive POut (α : Type)
  | panicked
  | ok (a : α) (rest : List Token)
  deriving Repr

/-- `ASSIGNMENT_SYMBOLS` of `parse_assignment_expr`. -/
def assignmentSymbols : List OperatorSymbol :=
  [.plusEq, .timesEq, .minusEq, .divideEq, .assign]

/-- `COMPARISON_SYMBOLS` of `parse_comparison_expression`. -/
def comparisonSymbols : List OperatorSymbol :=
  [.equalTo, .notEqualTo, .lessThan, .lessOrEqualTo, .greaterThan, .greaterOrEqualTo]

/-- `Parser::parse_atom`. -/
def parse_atom : List Token → POut Expr
  | .identifier id :: rest => .ok (.identifier id) rest
  | .i64Literal n :: rest => .ok (.i64Literal n) rest
  | _ => .panicked

mutual

/-- `Parser::parse_expr`. -/
def parse_expr : Nat → List Token → POut Expr
  | 0, _ => .panicked
  | f+1, toks => parse_assignment_expr f toks

/-- `Parser::parse_assignment_expr`. -/
def parse_assignment_expr : Nat → List Token → POut Expr
  | 0, _ => .panicked
  | f+1, toks =>
    match parse_logical_or_expr f toks with
    | .panicked => .panicked
    | .ok left rest =>
      match rest with
      | .operatorSymbol op :: rest2 =>
        if op ∈ assignmentSymbols then
          match parse_assignment_expr f rest2 with
          | .panicked => .panicked
          | .ok right rest3 =>
            .ok (.binExpr left (BinaryOperator.fromSym op) right) rest3
        else .ok left rest
      | _ => .ok left rest

/-- `Parser::parse_logical_or_expr`. -/
def parse_logical_or_expr : Nat → List Token → POut Expr
  | 0, _ => .panicked
  | f+1, toks => parse_logical_and_expr f toks

/-- `Parser::parse_logical_and_expr`. -/
def parse_logical_and_expr : Nat → List Token → POut Expr
  | 0, _ => .panicked
  | f+1, toks => parse_comparison_expression f toks

/-- `Parser::parse_comparison_expression`: at most one comparison operator; a
second one right after the right operand is the fatal "cannot be chained"
error. -/
def parse_comparison_expression : Nat → List Token → POut Expr
  | 0, _ => .panicked
  | f+1, toks =>
    match parse_add_sub_expr f toks with
    | .panicked => .panicked
    | .ok left rest =>
      match rest with
      | .operatorSymbol op :: rest2 =>
        if op ∈ comparisonSymbols then
          match parse_add_sub_expr f rest2 with
          | .panicked => .panicked
          | .ok right rest3 =>
            match rest3 with
            | .operatorSymbol op2 :: _ =>
              if op2 ∈ comparisonSymbols then .panicked
              else .ok (.binExpr left (BinaryOperator.fromSym op) right) rest3
            | _ => .ok (.binExpr left (BinaryOperator.fromSym op) right) rest3
        else .ok left rest
      | _ => .ok left rest

/-- `Parser::parse_add_sub_expr` (entry). -/
def parse_add_sub_expr : Nat → List Token → POut Expr
  | 0, _ => .panicked
  | f+1, toks =>
    match parse_mul_div_expr f toks with
    | .panicked => .panicked
    | .ok left rest => parse_add_sub_loop f left rest

/-- The `while` loop of `parse_add_sub_expr`, folding further `+`/`-`
operands into `left_expr_so_far`. -/
def parse_add_sub_loop : Nat → Expr → List Token → POut Expr
  | 0, _, _ => .panicked
  | f+1, left, toks =>
    match toks with
    | .operatorSymbol op :: rest =>
      if op = .plus ∨ op = .minus then
        match parse_mul_div_expr f rest with
        | .panicked => .panicked
        | .ok right rest2 =>
          parse_add_sub_loop f (.binExpr left (BinaryOperator.fromSym op) right) rest2
      else .ok left toks
    | _ => .ok left toks

/-- `Parser::parse_mul_div_expr` (entry). -/
def parse_mul_div_expr : Nat → List Token → POut Expr
  | 0, _ => .panicked
  | f+1, toks =>
    match parse_primary_expr f toks with
    | .panicked => .panicked
    | .ok left rest => parse_mul_div_loop f left rest

/-- The `while` loop of `parse_mul_div_expr`. -/
def parse_mul_div_loop : Nat → Expr → List Token → POut Expr
  | 0, _, _ => .panicked
  | f+1, left, toks =>
    match toks with
    | .operatorSymbol op :: rest =>
      if op = .asterisk ∨ op = .slash then
        match parse_primary_expr f rest with
        | .panicked => .panicked
        | .ok right rest2 =>
          parse_mul_div_loop f (.binExpr left (BinaryOperator.fromSym op) right) rest2
      else .ok left toks
    | _ => .ok left toks

/-- `Parser::parse_primary_expr`: parenthesised expression, call/index chain
on an identifier, or a bare atom. -/
def parse_primary_expr : Nat → List Token → POut Expr
  | 0, _ => .panicked
  | f+1, toks =>
    match toks with
    | .lParen :: rest =>
      (match parse_expr f rest with
       | .panicked => .panicked
       | .ok e rest2 =>
         match rest2 with
         | .rParen :: rest3 => .ok e rest3
         | _ => .panicked)
    | .identifier id :: .lParen :: _ => parse_call_expr f (.identifier id :: .lParen :: (toks.drop 2))
    | .identifier id :: .lSquare :: _ => parse_call_expr f (.identifier id :: .lSquare :: (toks.drop 2))
    | _ => parse_atom toks

/-- `Parser::parse_call_expr` (entry: parse the atom, then the postfix
chain). -/
def parse_call_expr : Nat → List Token → POut Expr
  | 0, _ => .panicked
  | f+1, toks =>
    match parse_atom toks with
    | .panicked => .panicked
    | .ok e rest => parse_call_loop f e rest

/-- The `while` loop of `parse_call_expr`: `(`, `[` postfix applications.
`parse_index` is `todo!()` in the source, so the `[` case is a panic. -/
def parse_call_loop : Nat → Expr → List Token → POut Expr
  | 0, _, _ => .panicked
  | f+1, e, toks =>
    match toks with
    | .lParen :: _ =>
      (match parse_args f toks with
       | .panicked => .panicked
       | .ok args rest2 => parse_call_loop f (.callExpr e args) rest2)
    | .lSquare :: _ => .panicked
    | _ => .ok e toks

/-- `Parser::parse_args` (entry: `(`, then either `)` or the argument
loop). -/
def parse_args : Nat → List Token → POut (List Expr)
  | 0, _ => .panicked
  | f+1, toks =>
    match toks with
    | .lParen :: rest =>
      (match rest with
       | .rParen :: rest2 => .ok [] rest2
       | _ => parse_args_loop f [] rest)
    | _ => .panicked

/-- The `loop` of `Parser::parse_args`. -/
def parse_args_loop : Nat → List Expr → List Token → POut (List Expr)
  | 0, _, _ => .panicked
  | f+1, acc, toks =>
    match parse_expr f toks with
    | .panicked => .panicked
    | .ok e rest =>
      match rest with
      | .rParen :: rest2 => .ok (acc ++ [e]) rest2
      | .comma :: rest2 => parse_args_loop f (acc ++ [e]) rest2
      | _ => .panicked

end

/-- `Parser::parse_type`. -/
def parse_type : List Token → POut Ty
  | .typeTok t :: rest => .ok t rest
  | _ => .panicked

/-- `Parser::parse_identifier`. -/
def parse_identifier : List Token → POut String
  | .identifier id :: rest => .ok id rest
  | _ => .panicked

/-- `Parser::parse_var_dec`, already wrapped in `Statement::VarDeclaration`
(the Rust function returns the bare struct and `parse_statement` wraps it). -/
def parse_var_dec (f : Nat) (toks : List Token) : POut Statement :=
  match parse_type toks with
  | .panicked => .panicked
  | .ok ty rest =>
    match parse_identifier rest with
    | .panicked => .panicked
    | .ok name rest2 =>
      match rest2 with
      | .operatorSymbol .assign :: rest3 =>
        (match parse_expr f rest3 with
         | .panicked => .panicked
         | .ok v rest4 => .ok (.varDeclaration name ty v) rest4)
      | _ => .panicked

/-- `Parser::parse_return_statement`: consume `ret`, then *unconditionally*
parse an expression (there is no optional-expression path in the source). -/
def parse_return_statement (f : Nat) (toks : List Token) : POut Expr :=
  match toks with
  | .retTok :: rest => parse_expr f rest
  | _ => .panicked

/-- `Parser::skip_newlines_comments_and_docstrings`. -/
def skip_newlines_comments_and_docstrings (toks : List Token) : List Token :=
  toks.dropWhile fun t =>
    match t with
    | .newline => true
    | .comment _ => true
    | .docstring _ => true
    | _ => false

mutual

/-- `Parser::parse_statement`: skip leading newlines/comments, dispatch on
the first token, then require a Newline or end of input after the
statement. `ok none` is the Rust `None` (end of input, no statement). -/
def parse_statement : Nat → List Token → POut (Option Statement)
  | 0, _ => .panicked
  | f+1, toks0 =>
    match skip_newlines_comments_and_docstrings toks0 with
    | [] => .ok none []
    | t :: ts =>
      let inner : POut Statement :=
        match t with
        | .typeTok _ => parse_var_dec f (t :: ts)
        | .whileTok => parse_while_loop f (t :: ts)
        | .fnTok => .panicked
        | .retTok =>
          (match parse_return_statement f (t :: ts) with
           | .panicked => .panicked
           | .ok e rest => .ok (.returnStatement e) rest)
        | _ =>
          (match parse_expr f (t :: ts) with
           | .panicked => .panicked
           | .ok e rest => .ok (.exprStatement e) rest)
      match inner with
      | .panicked => .panicked
      | .ok st rest =>
        match rest with
        | [] => .ok (some st) []
        | .newline :: rest2 => .ok (some st) rest2
        | _ => .panicked

/-- `Parser::parse_while_loop`. -/
def parse_while_loop : Nat → List Token → POut Statement
  | 0, _ => .panicked
  | f+1, toks =>
    match toks with
    | .whileTok :: rest =>
      (match parse_expr f rest with
       | .panicked => .panicked
       | .ok cond rest2 =>
         match parse_body f rest2 with
         | .panicked => .panicked
         | .ok body rest3 => .ok (.whileLoop cond body) rest3)
    | _ => .panicked

/-- `Parser::parse_body` (entry: `{`, then the statement loop). -/
def parse_body : Nat → List Token → POut (List Statement)
  | 0, _ => .panicked
  | f+1, toks =>
    match toks with
    | .lSquirly :: rest => parse_body_loop f [] rest
    | _ => .panicked

/-- The `while let` loop of `Parser::parse_body`, ending at `}` (consumed by
the trailing `assert_next_token`); running out of tokens is a fatal error. -/
def parse_body_loop : Nat → List Statement → List Token → POut (List Statement)
  | 0, _, _ => .panicked
  | f+1, acc, toks =>
    match toks with
    | [] => .panicked
    | .rSquirly :: rest => .ok acc rest
    | _ =>
      match parse_statement f toks with
      | .panicked => .panicked
      | .ok (some st) rest => parse_body_loop f (acc ++ [st]) rest
      | .ok none _ => .panicked

end

/-- Fuel bound used by the top-level wrappers. The call graph loses at most a
constant depth between two token consumptions, so this is ample for every
input the claims consider. -/
def parseFuel (toks : List Token) : Nat := 16 * toks.length + 16

/-- `parse_expr` on a fresh cursor. -/
def parse_expr_top (toks : List Token) : POut Expr := parse_expr (parseFuel toks) toks

/-- `parse_statement` on a fresh cursor. -/
def parse_statement_top (toks : List Token) : POut (Option Statement) :=
  parse_statement (parseFuel toks) toks


/-! ### Claim theorems about the parser -/

/-- C3 counterexample: on `x += 5` the parser does *not* produce the claimed
desugared AST `Assign("x", Binary(Identifier("x"), Add, 5))` (whose nearest
representation in this AST is a `binExpr` with the `assign` operator whose
right side duplicates the identifier): it produces one flat binary node whose
right child is the bare value, with no duplicated target. -/
theorem parse_compound_assign_counterexample :
    parse_expr_top (.identifier "x" :: .operatorSymbol .plusEq :: .i64Literal 5 :: []) =
      .ok (.binExpr (.identifier "x") .add (.i64Literal 5)) [] ∧
    (POut.ok (Expr.binExpr (Expr.identifier "x") BinaryOperator.add
        (Expr.i64Literal 5)) ([] : List Token) ≠
      POut.ok (Expr.binExpr (Expr.identifier "x") BinaryOperator.assign
        (Expr.binExpr (Expr.identifier "x") BinaryOperator.add
          (Expr.i64Literal 5))) ([] : List Token)) := by
  refine ⟨rfl, ?_⟩
  intro h
  simp at h

/-- C3 (amended): for `name op= value` with op= one of `+=`, `-=`, `*=`, `/=`,
the parser produces the single binary-expression node
`BinExpr(Identifier(name), BinaryOperator::from(op), value)` — the compound
symbol mapped to the corresponding plain operator — and not a desugared
assignment that duplicates the target identifier. -/
theorem parse_compound_assign (name : String) (v : Int) (op : OperatorSymbol)
    (h : op ∈ [OperatorSymbol.plusEq, .minusEq, .timesEq, .divideEq]) :
    parse_expr_top (.identifier name :: .operatorSymbol op :: .i64Literal v :: []) =
      .ok (.binExpr (.identifier name) (BinaryOperator.fromSym op) (.i64Literal v)) [] := by
  simp only [List.mem_cons, List.not_mem_nil, or_false] at h
  rcases h with rfl | rfl | rfl | rfl <;> rfl

/-- Witness for `parse_compound_assign` at `x += 5`. -/
theorem parse_compound_assign_witness :
    OperatorSymbol.plusEq ∈ [OperatorSymbol.plusEq, .minusEq, .timesEq, .divideEq] ∧
    parse_expr_top (.identifier "x" :: .operatorSymbol .plusEq :: .i64Literal 5 :: []) =
      .ok (.binExpr (.identifier "x") (BinaryOperator.fromSym .plusEq) (.i64Literal 5)) [] :=
  ⟨by decide, parse_compound_assign "x" 5 .plusEq (by decide)⟩

/-- C4 counterexample: parsing `ret` immediately followed by a newline (or by
end of input) does not succeed with an expressionless ReturnStatement — it is
a fatal parse error, because `parse_return_statement` unconditionally parses
an expression after `ret`. -/
theorem parse_bare_ret_counterexample :
    parse_statement_top (.retTok :: .newline :: []) = .panicked ∧
    parse_statement_top (.retTok :: []) = .panicked := ⟨rfl, rfl⟩

/-- C4 (amended): the expression after `ret` is mandatory: `ret <expr>`
parses to a ReturnStatement carrying the expression, while `ret` immediately
followed by a newline or by end of input is a fatal parse error. -/
theorem parse_return_requires_expr (name : String) :
    parse_statement_top (.retTok :: .identifier name :: []) =
      .ok (some (.returnStatement (.identifier name))) [] ∧
    parse_statement_top (.retTok :: .newline :: []) = .panicked ∧
    parse_statement_top (.retTok :: []) = .panicked :=
  ⟨rfl, rfl, rfl⟩

/-- C7: parsing `10 + 3 * 8 / 4 - 13 + 5` as an expression statement yields
`((10 + ((3*8)/4)) - 13) + 5`: additive and multiplicative tiers group
left-associatively, and the multiplicative tier binds tighter. -/
theorem parse_order_of_operations :
    parse_statement_top (.i64Literal 10 :: .operatorSymbol .plus :: .i64Literal 3 ::
        .operatorSymbol .asterisk :: .i64Literal 8 :: .operatorSymbol .slash ::
        .i64Literal 4 :: .operatorSymbol .minus :: .i64Literal 13 ::
        .operatorSymbol .plus :: .i64Literal 5 :: []) =
      .ok (some (.exprStatement (.binExpr
        (.binExpr
          (.binExpr (.i64Literal 10) .add
            (.binExpr (.binExpr (.i64Literal 3) .multiply (.i64Literal 8)) .divide
              (.i64Literal 4)))
          .subtract (.i64Literal 13))
        .add (.i64Literal 5)))) [] := rfl

/-- An atom token (identifier or integer literal) together with the
expression `parse_atom` builds for it; used to state C8 schematically. -/
inductive AtomTok
  | ident (s : String)
  | i64 (n : Int)
  deriving DecidableEq, Repr

/-- The token of an atom. -/
def AtomTok.tok : AtomTok → Token
  | .ident s => .identifier s
  | .i64 n => .i64Literal n

/-- The expression of an atom. -/
def AtomTok.expr : AtomTok → Expr
  | .ident s => .identifier s
  | .i64 n => .i64Literal n

/-- C8: an expression with exactly one comparison operator parses into a
single Binary comparison node, and a second comparison operator directly
following the right operand is the fatal "cannot be chained" parse error. -/
theorem parse_comparison_non_chained (a b : AtomTok) (op1 op2 : OperatorSymbol)
    (h1 : op1 ∈ comparisonSymbols) (h2 : op2 ∈ comparisonSymbols) :
    parse_expr_top (a.tok :: .operatorSymbol op1 :: b.tok :: []) =
      .ok (.binExpr a.expr (BinaryOperator.fromSym op1) b.expr) [] ∧
    parse_expr_top (a.tok :: .operatorSymbol op1 :: b.tok :: .operatorSymbol op2 :: []) =
      .panicked := by
  simp only [comparisonSymbols, List.mem_cons, List.not_mem_nil, or_false] at h1 h2
  cases a <;> cases b <;>
    rcases h1 with rfl | rfl | rfl | rfl | rfl | rfl <;>
    rcases h2 with rfl | rfl | rfl | rfl | rfl | rfl <;>
    exact ⟨rfl, rfl⟩

/-- Witness for `parse_comparison_non_chained` at `a < b` and `a < b < c`. -/
theorem parse_comparison_non_chained_witness :
    OperatorSymbol.lessThan ∈ comparisonSymbols ∧
    (parse_expr_top ((AtomTok.ident "a").tok :: .operatorSymbol .lessThan ::
        (AtomTok.ident "b").tok :: []) =
      .ok (.binExpr (AtomTok.ident "a").expr (BinaryOperator.fromSym .lessThan)
        (AtomTok.ident "b").expr) [] ∧
    parse_expr_top ((AtomTok.ident "a").tok :: .operatorSymbol .lessThan ::
        (AtomTok.ident "b").tok :: .operatorSymbol .lessThan :: []) = .panicked) :=
  ⟨by decide,
   parse_comparison_non_chained (.ident "a") (.ident "b") .lessThan .lessThan
     (by decide) (by decide)⟩

end Parser

namespace Compiler

/-! ### The code generator of `src/compiler/compiler.rs`

The compiler consumes the AST of `crate::parser::ast` and the scope stack of
`crate::compiler::scope_manager`; neither module is under `src/`, so both are
modelled from the spec (data model and Scope Tracker of the spec, matching
exactly the fields and variants `compiler.rs` uses). LLVM is modelled
abstractly: a module is the list of declared functions with their arity, the
builder's output is the ordered instruction list of the (single) entry block,
and `LLVMValueRef`s are symbolic values. Rust panics (`panic!`, `todo!` in
`compile_while_loop`) are the `none` outcome. `LLVMVerifyFunction` only
prints, `LLVMSetLinkage` and `LLVMSetValueName2` only annotate, and
`create_entry_block_alloca` inserts at the end of the entry block — which is
where generation happens anyway, since no control flow is ever lowered — so
these are modelled as no-ops / plain appends. -/

/-- Modelled from the spec: `crate::lexer::token::Type` as used by the
compiler (`I64` and `Void`). -/
inductive Ty
  | i64 | void
  deriving DecidableEq, Repr

/-- Modelled from the spec: `crate::parser::ast::BinaryOperator` — the
operators `compile_bin_expr` matches on (no compound or assign variants). -/
inductive BinaryOperator
  | add | subtract | multiply | divide
  | equalTo | notEqualTo | lessThan | lessOrEqualTo | greaterThan | greaterOrEqualTo
  deriving DecidableEq, Repr

/-- Modelled from the spec: `crate::parser::ast::Expr` as used by
`compiler.rs` (the `Binary`, `Call` and `Assign` structs are flattened into
constructor fields). -/
inductive CExpr
  | identifier (name : String)
  | i64Literal (x : Int)
  | binary (left : CExpr) (operator : BinaryOperator) (right : CExpr)
  | call (function_name : String) (args : List CExpr)
  | assign (name : String) (value : CExpr)
  deriving Repr

/-- Modelled from the spec: `crate::parser::ast::VarDeclaration` (name, type,
optional initializer). -/
structure VarDeclaration where
  var_name : String
  var_type : Ty
  var_value : Option CExpr
  deriving Repr

/-- Modelled from the spec: `crate::parser::ast::Statement` as used by
`compiler.rs` (`Return` carries an optional expression). -/
inductive CStatement
  | varDeclarations (ds : List VarDeclaration)
  | whileLoop (condition : CExpr) (body : List CStatement)
  | expr (e : CExpr)
  | ret (r : Option CExpr)
  deriving Repr

/-- Modelled from the spec: `crate::parser::ast::FuncParam`. -/
structure FuncParam where
  param_type : Ty
  param_name : String
  deriving DecidableEq, Repr

/-- Modelled from the spec: `crate::parser::ast::FuncDef` (ordered params,
return type, body, visibility flag controlling linkage). -/
structure FuncDef where
  name : String
  params : List FuncParam
  return_type : Ty
  body : List CStatement
  is_public : Bool
  deriving Repr

/-- An abstract `LLVMValueRef`: an i64 constant, an instruction result, an
alloca (stack slot pointer), or an incoming parameter. Values in this model
are never null, so the null-argument check of `compile_call_expr` cannot
fire. -/
inductive Value
  | constInt (n : Int)
  | reg (id : Nat)
  | slotRef (id : Nat)
  | param (idx : Nat)
  deriving DecidableEq, Repr

/-- An abstract entry-block instruction emitted through the builder. -/
inductive Instr
  | alloca (slotId : Nat) (ty : Ty)
  | store (v : Value) (slotId : Nat)
  | load (slotId : Nat) (dst : Nat)
  | binop (op : BinaryOperator) (l r : Value) (dst : Nat)
  | icmp (op : BinaryOperator) (l r : Value) (dst : Nat)
  | callInstr (fname : String) (args : List Value) (dst : Nat)
  | retVoid
  | retVal (v : Value)
  deriving DecidableEq, Repr

/-- Modelled from the spec: the Scope Tracker — a stack of frames, each a
mapping from variable name to a storage-slot handle; lookups search
innermost-to-outermost, first match wins. -/
abbrev ScopeManager := List (List (String × Nat))

/-- `ScopeManager::enter_scope`: push a fresh frame. -/
def enter_scope (sm : ScopeManager) : ScopeManager := [] :: sm

/-- `ScopeManager::exit_scope`: pop the innermost frame. -/
def exit_scope (sm : ScopeManager) : ScopeManager := sm.tail

/-- `ScopeManager::set_var`: record the binding in the innermost frame (the
newest binding shadows older ones). -/
def set_var (sm : ScopeManager) (name : String) (slotId : Nat) : ScopeManager :=
  match sm with
  | [] => [[(name, slotId)]]
  | s :: rest => ((name, slotId) :: s) :: rest

/-- `ScopeManager::get_var`: innermost-to-outermost lookup. -/
def get_var (sm : ScopeManager) (name : String) : Option Nat :=
  match sm with
  | [] => none
  | s :: rest =>
    match s.lookup name with
    | some slotId => some slotId
    | none => get_var rest name

/-- The compiler's mutable state: the module's declared functions with their
arity, the scope stack, the emitted entry-block instructions, and the fresh
counters for instruction results and stack slots. -/
structure St where
  module : List (String × Nat)
  scope_manager : ScopeManager
  instrs : List Instr
  next_reg : Nat
  next_slot : Nat
  deriving Repr

/-- `Compiler::create_entry_block_alloca`: allocate a fresh slot in the entry
block and return its handle. -/
def create_entry_block_alloca (st : St) (ty : Ty) : Nat × St :=
  let id := st.next_slot
  (id, { st with instrs := st.instrs ++ [.alloca id ty], next_slot := id + 1 })

mutual

/-- `Compiler::compile_expr` (with `compile_identifier`, `compile_i64_literal`,
`compile_bin_expr`, `compile_call_expr`, `compile_assignment` inlined as the
match arms they are dispatched to). `none` is a fatal semantic error. -/
def compile_expr : St → CExpr → Option (Value × St)
  | st, .identifier id =>
    (match get_var st.scope_manager id with
     | none => none
     | some slotId =>
       let dst := st.next_reg
       some (.reg dst, { st with instrs := st.instrs ++ [.load slotId dst], next_reg := dst + 1 }))
  | st, .i64Literal x => some (.constInt x, st)
  | st, .binary l op r =>
    (match compile_expr st l with
     | none => none
     | some (lv, st1) =>
       match compile_expr st1 r with
       | none => none
       | some (rv, st2) =>
         let dst := st2.next_reg
         let instr :=
           match op with
           | .add => Instr.binop .add lv rv dst
           | .subtract => Instr.binop .subtract lv rv dst
           | .multiply => Instr.binop .multiply lv rv dst
           | .divide => Instr.binop .divide lv rv dst
           | .equalTo => Instr.icmp .equalTo lv rv dst
           | .notEqualTo => Instr.icmp .notEqualTo lv rv dst
           | .lessThan => Instr.icmp .lessThan lv rv dst
           | .lessOrEqualTo => Instr.icmp .lessOrEqualTo lv rv dst
           | .greaterThan => Instr.icmp .greaterThan lv rv dst
           | .greaterOrEqualTo => Instr.icmp .greaterOrEqualTo lv rv dst
         some (.reg dst, { st2 with instrs := st2.instrs ++ [instr], next_reg := dst + 1 }))
  | st, .call fname args =>
    (match st.module.lookup fname with
     | none => none
     | some num_params =>
       if num_params = args.length then
         match compile_args st args with
         | none => none
         | some (vals, st1) =>
           let dst := st1.next_reg
           some (.reg dst, { st1 with instrs := st1.instrs ++ [.callInstr fname vals dst], next_reg := dst + 1 })
       else none)
  | st, .assign name value =>
    (match compile_expr st value with
     | none => none
     | some (v, st1) =>
       match get_var st1.scope_manager name with
       | none => none
       | some slotId => some (v, { st1 with instrs := st1.instrs ++ [.store v slotId] }))

/-- Argument lowering loop of `compile_call_expr` (left to right). -/
def compile_args : St → List CExpr → Option (List Value × St)
  | st, [] => some ([], st)
  | st, e :: rest =>
    (match compile_expr st e with
     | none => none
     | some (v, st1) =>
       match compile_args st1 rest with
       | none => none
       | some (vs, st2) => some (v :: vs, st2))

end

/-- `Compiler::compile_var_declarations`. -/
def compile_var_declarations (st : St) : List VarDeclaration → Option St
  | [] => some st
  | d :: rest =>
    let (slotId, st1) := create_entry_block_alloca st d.var_type
    let st2 := { st1 with scope_manager := set_var st1.scope_manager d.var_name slotId }
    match d.var_value with
    | none => compile_var_declarations st2 rest
    | some e =>
      match compile_expr st2 e with
      | none => none
      | some (v, st3) =>
        compile_var_declarations { st3 with instrs := st3.instrs ++ [.store v slotId] } rest

/-- `Compiler::compile_ret_statement`: `LLVMBuildRet` of the lowered value,
or `LLVMBuildRetVoid` when there is no expression. -/
def compile_ret_statement (st : St) : Option CExpr → Option St
  | some e =>
    (match compile_expr st e with
     | none => none
     | some (v, st1) => some { st1 with instrs := st1.instrs ++ [.retVal v] })
  | none => some { st with instrs := st.instrs ++ [.retVoid] }

/-- `Compiler::compile_statement`; `compile_while_loop` is `todo!()` in the
source, a panic. -/
def compile_statement (st : St) : CStatement → Option St
  | .varDeclarations ds => compile_var_declarations st ds
  | .whileLoop _ _ => none
  | .expr e => (compile_expr st e).map (fun p => p.2)
  | .ret r => compile_ret_statement st r

/-- The statement loop of `compile_func_def`. -/
def compile_statements (st : St) : List CStatement → Option St
  | [] => some st
  | s :: rest =>
    match compile_statement st s with
    | none => none
    | some st1 => compile_statements st1 rest

/-- The parameter loop of `compile_func_def`: for each parameter, a fresh
entry-block alloca, a store of the incoming value, and a scope binding. -/
def bind_params (st : St) : List FuncParam → Nat → St
  | [], _ => st
  | p :: rest, idx =>
    let (slotId, st1) := create_entry_block_alloca st p.param_type
    let st2 := { st1 with instrs := st1.instrs ++ [.store (.param idx) slotId], scope_manager := set_var st1.scope_manager p.param_name slotId }
    bind_params st2 rest (idx + 1)

/-- The prelude of `compile_func_def` after the redefinition check: add the
function to the module (`LLVMAddFunction` — before the body, so calls to the
function resolve), enter a fresh scope and bind the parameters. -/
def func_setup (st : St) (fd : FuncDef) : St :=
  let st1 := { st with module := st.module ++ [(fd.name, fd.params.length)] }
  let st2 := { st1 with scope_manager := enter_scope st1.scope_manager }
  bind_params st2 fd.params 0

/-- `Compiler::compile_func_def`: redefinition check, setup, body statements
in order, then — unless the body's last statement is already a `Return` — one
synthetic `compile_ret_statement(&None)`; finally the scope is popped (and
`LLVMVerifyFunction` only reports, modelled as a no-op). -/
def compile_func_def (st : St) (fd : FuncDef) : Option St :=
  if (st.module.lookup fd.name).isSome then none
  else
    match compile_statements (func_setup st fd) fd.body with
    | none => none
    | some stB =>
      match fd.body.getLast? with
      | some (.ret _) => some { stB with scope_manager := exit_scope stB.scope_manager }
      | _ =>
        match compile_ret_statement stB none with
        | none => none
        | some stR => some { stR with scope_manager := exit_scope stR.scope_manager }

/-- `Compiler::compile`: all function definitions in order. -/
def compile (st : St) : List FuncDef → Option St
  | [] => some st
  | fd :: rest =>
    match compile_func_def st fd with
    | none => none
    | some st1 => compile st1 rest


/-! ### Claim theorem about the code generator -/

/-- C6: for every function definition that compiles, if the body is non-empty
and its last statement is a `Return`, the code generator appends no synthetic
return after the body's instructions; otherwise (empty body, or a last
statement of any other kind) exactly one implicit return-void instruction is
appended after them. -/
theorem compile_func_def_synthetic_return (st : St) (fd : FuncDef) (stB : St)
    (hdef : (st.module.lookup fd.name).isSome = false)
    (hbody : compile_statements (func_setup st fd) fd.body = some stB) :
    ∃ st2, compile_func_def st fd = some st2 ∧
      st2.instrs = stB.instrs ++
        (match fd.body.getLast? with
         | some (.ret _) => []
         | _ => [Instr.retVoid]) := by
  simp only [compile_func_def]
  rw [if_neg (by simp [hdef]), hbody]
  cases hl : fd.body.getLast? with
  | none => exact ⟨_, rfl, by simp [compile_ret_statement]⟩
  | some s =>
    cases s with
    | varDeclarations ds => exact ⟨_, rfl, by simp [compile_ret_statement]⟩
    | whileLoop c b => exact ⟨_, rfl, by simp [compile_ret_statement]⟩
    | expr e => exact ⟨_, rfl, by simp [compile_ret_statement]⟩
    | ret r => exact ⟨_, rfl, by simp⟩

/-- The empty compiler state (fresh module/builder), for the witness. -/
def initSt : St :=
  { module := [], scope_manager := [], instrs := [], next_reg := 0, next_slot := 0 }

/-- A minimal function definition with an empty body, for the witness. -/
def emptyMainFd : FuncDef :=
  { name := "main", params := [], return_type := .void, body := [], is_public := true }

/-- Witness for `compile_func_def_synthetic_return` on an empty-bodied
function starting from the empty state (one synthetic return-void). -/
theorem compile_func_def_synthetic_return_witness :
    (initSt.module.lookup emptyMainFd.name).isSome = false ∧
    compile_statements (func_setup initSt emptyMainFd) emptyMainFd.body =
      some (func_setup initSt emptyMainFd) ∧
    ∃ st2, compile_func_def initSt emptyMainFd = some st2 ∧
      st2.instrs = (func_setup initSt emptyMainFd).instrs ++
        (match emptyMainFd.body.getLast? with
         | some (.ret _) => []
         | _ => [Instr.retVoid]) :=
  ⟨rfl, rfl,
   compile_func_def_synthetic_return initSt emptyMainFd (func_setup initSt emptyMainFd) rfl rfl⟩

end Compiler

end Flick
